import Mathlib

/-!
# IS31FL3209 LED driver: register protocol

A shallow embedding of `IS31FL3209.h` / `IS31FL3209.cpp` (the Arduino driver of the
18-channel IS31FL3209 LED driver) and theorems about the byte sequences it puts on the
two-wire bus.

Bytes (`uint8_t`) are natural numbers below 256; the one place where the source computes
outside that range (`REG_PWM + (channel - 1)`, evaluated in `int` and converted back to
`uint8_t`) and the 8-bit loop counters carry an explicit `% 256`.
-/

/-! ## Constants of `IS31FL3209.h` -/

/-- Register: software shutdown. -/
def REG_SW_SHUTDOWN : Nat := 0x00
/-- Register: PWM duty of channel 1 (base of the PWM block). -/
def REG_PWM : Nat := 0x01
/-- Register: update (latch). -/
def REG_UPDATE : Nat := 0x13
/-- Register: current control of channel 1 (base of the current block). -/
def REG_LED_CONTROL : Nat := 0x14
/-- Register: global control. -/
def REG_GLOBAL_CONTROL : Nat := 0x26
/-- Register: output frequency. -/
def REG_OUTPUT_FREQ : Nat := 0x27
/-- Register: reset. -/
def REG_RESET : Nat := 0x2F

def OP_MODE_SHUTDOWN : Nat := 0x00
def OP_MODE_NORMAL : Nat := 0x01

def PWM_FREQ_23KHZ : Nat := 0x00
def PWM_FREQ_3KHZ : Nat := 0x01

def GLOBAL_LED_ENABLE : Nat := 0x00
def GLOBAL_LED_DISABLE : Nat := 0x01

def AD_GND_ADDR : Nat := 0x6C
def AD_VCC_ADDR : Nat := 0x6F
def AD_SCL_ADDR : Nat := 0x6D
def AD_SDA_ADDR : Nat := 0x6E

/-- Channel count (`18u`). -/
def NUM_CHANNELS : Nat := 18

/-! ## The bus transport -/

/-- One finished bus transaction: the 7-bit address it was begun with and the bytes written
to it, in order (register address first, then the data bytes). -/
structure Transaction where
  addr : Nat
  payload : List Nat
deriving DecidableEq

/-- Modelled from the spec: the `TwoWire` transport of `Wire.h`, which is not part of the
sources. The spec (section 6) gives it three operations: begin a transaction addressed to a
device address, write one byte to the open transaction, end the transaction, which puts the
bytes on the bus in order. `sent` is the list of the transactions ended so far, oldest
first. `results` holds the status codes the coming `endTransmission` calls will report
(0 is success; an empty list reports success). -/
structure TwoWire where
  transmitting : Bool
  txAddress : Nat
  txBuffer : List Nat
  sent : List Transaction
  results : List Nat
deriving DecidableEq

/-- Modelled from the spec: begin a transaction addressed to `address`. -/
def TwoWire.beginTransmission (w : TwoWire) (address : Nat) : TwoWire :=
  { w with transmitting := true, txAddress := address, txBuffer := [] }

/-- Modelled from the spec: write one byte to the open transaction. -/
def TwoWire.write (w : TwoWire) (data : Nat) : TwoWire :=
  if w.transmitting then { w with txBuffer := w.txBuffer ++ [data] } else w

/-- Modelled from the spec: end the transaction. The buffered bytes go out as one
transaction; the status of the transfer is returned. -/
def TwoWire.endTransmission (w : TwoWire) : TwoWire × Nat :=
  ({ w with transmitting := false, txBuffer := [],
            sent := w.sent ++ [⟨w.txAddress, w.txBuffer⟩],
            results := w.results.tail },
   w.results.headD 0)

/-! ## The driver object and the machine state -/

/-- The private fields of `class IS31FL3209`: `_wire` points to a bus object (here: its
index among the bus objects of the machine), `_addr` is the device address. -/
structure IS31FL3209 where
  _wire : Nat
  _addr : Nat
deriving DecidableEq

/-- The state a method runs in: the driver object and the bus objects it may point to. -/
structure Machine where
  self : IS31FL3209
  wires : Nat → TwoWire

/-- Run a `TwoWire` method on the bus object `_wire` points to. -/
def Machine.onWire (s : Machine) (f : TwoWire → TwoWire) : Machine :=
  { s with wires := Function.update s.wires s.self._wire (f (s.wires s.self._wire)) }

/-! ## Private methods -/

/-- Method `IS31FL3209::writeByte`. The status `endTransmission` returns is dropped. -/
def writeByte (reg val : Nat) (s : Machine) : Machine :=
  let s := s.onWire (fun w => w.beginTransmission s.self._addr)
  let s := s.onWire (fun w => w.write reg)
  let s := s.onWire (fun w => w.write val)
  s.onWire (fun w => w.endTransmission.1)

/-- The `for (uint8_t i=0; i<numBytes; i++) { _wire->write(val[i]); }` loop of `writeBytes`,
from counter value `i` on. `numBytes` is a `uint8_t`, and `i++` wraps at 256. `val i` is the
byte `val[i]` the pointer argument gives. -/
def writeBytesLoop (numBytes : Nat) (val : Nat → Nat) (i : Nat) (s : Machine) : Machine :=
  if i < numBytes % 256 then
    writeBytesLoop numBytes val ((i + 1) % 256) (s.onWire (fun w => w.write (val i)))
  else s
termination_by numBytes % 256 - i
decreasing_by omega

/-- Method `IS31FL3209::writeBytes`. The status `endTransmission` returns is dropped. -/
def writeBytes (startingReg numBytes : Nat) (val : Nat → Nat) (s : Machine) : Machine :=
  let s := s.onWire (fun w => w.beginTransmission s.self._addr)
  let s := s.onWire (fun w => w.write startingReg)
  let s := writeBytesLoop numBytes val 0 s
  s.onWire (fun w => w.endTransmission.1)

/-- Conversion of an `int` to `uint8_t`. -/
def toUint8 (x : Int) : Nat := (x % 256).toNat

/-- Value of a `bool` in an integer expression. -/
def boolVal (b : Bool) : Nat := if b then 1 else 0

/-! ## Public methods -/

/-- Method `IS31FL3209::resetRegisters`. -/
def resetRegisters (s : Machine) : Machine :=
  writeByte REG_RESET 0x00 s

/-- Method `IS31FL3209::setOperationMode`. -/
def setOperationMode (mode : Bool) (s : Machine) : Machine :=
  let opVal := 0x00 ||| boolVal mode
  writeByte REG_SW_SHUTDOWN opVal s

/-- Method `IS31FL3209::setGlobalControl`. -/
def setGlobalControl (mode : Bool) (s : Machine) : Machine :=
  let GCVal := 0x00 ||| boolVal mode
  writeByte REG_GLOBAL_CONTROL GCVal s

/-- Method `IS31FL3209::setPWMFrequency`. -/
def setPWMFrequency (setting : Bool) (s : Machine) : Machine :=
  let PWMVal := 0x00 ||| boolVal setting
  writeByte REG_OUTPUT_FREQ PWMVal s

/-- Method `IS31FL3209::begin`. The `uint8_t` arguments `OP_MODE_NORMAL`, `PWMFreq` and
`GLOBAL_LED_ENABLE` are converted to the `bool` parameters of the methods called (nonzero is
`true`). -/
def begin (wireInst address PWMFreq : Nat) (s : Machine) : Machine :=
  let s := { s with self := { _wire := wireInst, _addr := address } }
  let s := resetRegisters s
  let s := setOperationMode (OP_MODE_NORMAL != 0) s
  let s := setPWMFrequency (PWMFreq != 0) s
  setGlobalControl (GLOBAL_LED_ENABLE != 0) s

/-- Method `IS31FL3209::setChannelPWM`. `REG_PWM + (channel - 1)` is computed in `int` and
converted to the `uint8_t` parameter of `writeByte`. -/
def setChannelPWM (channel PWMVal : Nat) (s : Machine) : Machine :=
  writeByte (toUint8 ((REG_PWM : Int) + ((channel : Int) - 1))) PWMVal s

/-- The `for (uint8_t i=0; i<NUM_CHANNELS; i++) { arr[i] = v; }` loop of the all-channel
setters, from counter value `i` on; `arr` is the local array. -/
def fillLoop (v : Nat) (i : Nat) (arr : Nat → Nat) : Nat → Nat :=
  if i < NUM_CHANNELS then
    fillLoop v ((i + 1) % 256) (Function.update arr i v)
  else arr
termination_by NUM_CHANNELS - i
decreasing_by simp only [NUM_CHANNELS] at *; omega

/-- Method `IS31FL3209::setAllChannelsPWM`. `stack` is the indeterminate content of the
local array `PWMVals` before the loop fills it. -/
def setAllChannelsPWM (stack : Nat → Nat) (PWMVal : Nat) (s : Machine) : Machine :=
  let PWMVals := fillLoop PWMVal 0 stack
  writeBytes REG_PWM NUM_CHANNELS PWMVals s

/-- Method `IS31FL3209::updateChannels`. -/
def updateChannels (s : Machine) : Machine :=
  writeByte REG_UPDATE 0x00 s

/-- Method `IS31FL3209::setChannelCurrent`. -/
def setChannelCurrent (channel currentVal : Nat) (s : Machine) : Machine :=
  writeByte (toUint8 ((REG_LED_CONTROL : Int) + ((channel : Int) - 1))) currentVal s

/-- Method `IS31FL3209::setAllChannelsCurrent`. `stack` is the indeterminate content of the
local array `currentVals` before the loop fills it. -/
def setAllChannelsCurrent (stack : Nat → Nat) (currentVal : Nat) (s : Machine) : Machine :=
  let currentVals := fillLoop currentVal 0 stack
  writeBytes REG_LED_CONTROL NUM_CHANNELS currentVals s

/-- Method `IS31FL3209::setChannel`. The source passes the bytes `PWMVal` and `currentVal`
themselves as the `uint8_t* val` argument of `writeBytes`, so `val[i]` is the byte of data
memory at address `PWMVal + i` (resp. `currentVal + i`); `mem` is that memory. The
parameter `channel` is not used by the body. -/
def setChannel (mem : Nat → Nat) (channel PWMVal currentVal : Nat) (s : Machine) : Machine :=
  let _ := channel
  let s := writeBytes REG_PWM NUM_CHANNELS (fun i => mem (PWMVal + i)) s
  writeBytes REG_LED_CONTROL NUM_CHANNELS (fun i => mem (currentVal + i)) s

/-- Method `IS31FL3209::setAllChannels`. `stackP` and `stackC` are the indeterminate
contents of the local arrays `PWMVals` and `currentVals`. -/
def setAllChannels (stackP stackC : Nat → Nat) (PWMVal currentVal : Nat) (s : Machine) :
    Machine :=
  let PWMVals := fillLoop PWMVal 0 stackP
  let s := writeBytes REG_PWM NUM_CHANNELS PWMVals s
  let currentVals := fillLoop currentVal 0 stackC
  writeBytes REG_LED_CONTROL NUM_CHANNELS currentVals s

/-! ## What a call emits -/

/-- The transactions ended so far on bus `bus`. -/
def sentOn (s : Machine) (bus : Nat) : List Transaction := (s.wires bus).sent

/-- Going from `s` to `t` emits exactly the transactions `T`, in this order, on bus `bus`:
they are appended to what that bus had sent, and no other bus sends anything. -/
def Emits (s t : Machine) (bus : Nat) (T : List Transaction) : Prop :=
  sentOn t bus = sentOn s bus ++ T ∧ ∀ b, b ≠ bus → sentOn t b = sentOn s b

/-- A machine whose buses are idle and have sent nothing. -/
def Machine.idle : Machine :=
  { self := { _wire := 0, _addr := 0 },
    wires := fun _ => { transmitting := false, txAddress := 0, txBuffer := [],
                        sent := [], results := [] } }

/-! ## The device -/

/-- Modelled from the spec: the registers of the IS31FL3209 on the far side of the bus
(hardware, not part of the sources). `shadow` is the register file that bus writes store
into; `active` is the state the outputs are driven from. A write to the update register
latches the shadow state into the active state; a write to the reset register returns every
register to its default (zero) at once; every other write stores its byte in the shadow
register file and leaves the active state alone. -/
structure Device where
  shadow : Nat → Nat
  active : Nat → Nat

/-- Modelled from the spec: one data byte `v` arriving for register `r`. -/
def Device.writeRegister (d : Device) (r v : Nat) : Device :=
  if r = REG_UPDATE then { d with active := d.shadow }
  else if r = REG_RESET then { shadow := fun _ => 0, active := fun _ => 0 }
  else { d with shadow := Function.update d.shadow r v }

/-- Modelled from the spec: the data bytes of one transaction, the first for register `r`,
each following one for the next register (auto-increment of the register pointer). -/
def Device.writeBurst (d : Device) (r : Nat) : List Nat → Device
  | [] => d
  | v :: vs => (d.writeRegister r v).writeBurst (r + 1) vs

/-- Modelled from the spec: a transaction `[r, d0, d1, …]` stores `di` at register `r + i`. -/
def Device.receive (d : Device) (t : Transaction) : Device :=
  match t.payload with
  | [] => d
  | r :: ds => d.writeBurst r ds

/-- Modelled from the spec: a sequence of transactions, received in order. -/
def Device.receiveAll (d : Device) (T : List Transaction) : Device :=
  T.foldl Device.receive d

/-- Modelled from the spec: the registers a transaction writes, one per data byte, counted
from its start address. -/
def registersWritten (t : Transaction) : List Nat :=
  match t.payload with
  | [] => []
  | r :: ds => List.range' r ds.length

/-- The PWM block `0x01..0x12` and the current block `0x14..0x25`. -/
def inChannelBlocks (r : Nat) : Prop :=
  (REG_PWM ≤ r ∧ r < REG_PWM + NUM_CHANNELS) ∨
  (REG_LED_CONTROL ≤ r ∧ r < REG_LED_CONTROL + NUM_CHANNELS)

instance (r : Nat) : Decidable (inChannelBlocks r) := by
  unfold inChannelBlocks; infer_instance

/-! ## Families of calls used in the statements -/

/-- The six setters of the PWM and current registers, with their arguments. -/
inductive Setter where
  | channelPWM (channel PWMVal : Nat)
  | allChannelsPWM (PWMVal : Nat)
  | channelCurrent (channel currentVal : Nat)
  | allChannelsCurrent (currentVal : Nat)
  | channel (channel PWMVal currentVal : Nat)
  | allChannels (PWMVal currentVal : Nat)

/-- Call the setter. `mem` is the data memory `setChannel` reads from; `stackP` and `stackC`
are the initial contents of the local arrays of the all-channel setters. -/
def Setter.run (mem stackP stackC : Nat → Nat) : Setter → Machine → Machine
  | .channelPWM c v, s => setChannelPWM c v s
  | .allChannelsPWM v, s => setAllChannelsPWM stackP v s
  | .channelCurrent c v, s => setChannelCurrent c v s
  | .allChannelsCurrent v, s => setAllChannelsCurrent stackC v s
  | .channel c p q, s => setChannel mem c p q s
  | .allChannels p q, s => setAllChannels stackP stackC p q s

/-- The channel argument, if any, is in 1..18 and the value arguments are bytes. -/
def Setter.inRange : Setter → Bool
  | .channelPWM c v => decide (1 ≤ c ∧ c ≤ 18 ∧ v < 256)
  | .allChannelsPWM v => decide (v < 256)
  | .channelCurrent c v => decide (1 ≤ c ∧ c ≤ 18 ∧ v < 256)
  | .allChannelsCurrent v => decide (v < 256)
  | .channel c p q => decide (1 ≤ c ∧ c ≤ 18 ∧ p < 256 ∧ q < 256)
  | .allChannels p q => decide (p < 256 ∧ q < 256)

/-- The calls `f(1), f(2), …, f(18)` one after the other. -/
def forEachChannel (f : Nat → Machine → Machine) (s : Machine) : Machine :=
  (List.range' 1 NUM_CHANNELS).foldl (fun s c => f c s) s

/-- The bytes `bs` written one after the other to a bus. -/
def TwoWire.writeAll (w : TwoWire) (bs : List Nat) : TwoWire := bs.foldl TwoWire.write w

/-- The transactions among `T` whose first byte (the register address) is `r`. -/
def addressedTo (r : Nat) (T : List Transaction) : List Transaction :=
  T.filter (fun t => t.payload.head? == some r)

/-- The initial state of the examples: the driver after `begin(Wire, AD_GND_ADDR,
PWM_FREQ_23KHZ)` on bus object 0 of an idle machine. -/
def Machine.started : Machine := begin 0 AD_GND_ADDR PWM_FREQ_23KHZ Machine.idle

/-! ## The public interface as a whole -/

/-- The twelve public methods of `class IS31FL3209`, with their arguments. -/
inductive Op where
  | begin (wireInst address PWMFreq : Nat)
  | setOperationMode (mode : Bool)
  | setChannelPWM (channel PWMVal : Nat)
  | setAllChannelsPWM (PWMVal : Nat)
  | setChannelCurrent (channel currentVal : Nat)
  | setAllChannelsCurrent (currentVal : Nat)
  | setChannel (channel PWMVal currentVal : Nat)
  | setAllChannels (PWMVal currentVal : Nat)
  | updateChannels
  | setGlobalControl (mode : Bool)
  | setPWMFrequency (mode : Bool)
  | resetRegisters

/-- Call the method. `mem` is the data memory `setChannel` reads from; `stackP` and `stackC`
are the initial contents of the local arrays of the all-channel setters. Every method is
declared `void`: the call gives back nothing but the state it leaves. -/
def runOp (mem stackP stackC : Nat → Nat) : Op → Machine → Machine
  | .begin w a f, s => begin w a f s
  | .setOperationMode m, s => setOperationMode m s
  | .setChannelPWM c v, s => setChannelPWM c v s
  | .setAllChannelsPWM v, s => setAllChannelsPWM stackP v s
  | .setChannelCurrent c v, s => setChannelCurrent c v s
  | .setAllChannelsCurrent v, s => setAllChannelsCurrent stackC v s
  | .setChannel c p q, s => setChannel mem c p q s
  | .setAllChannels p q, s => setAllChannels stackP stackC p q s
  | .updateChannels, s => updateChannels s
  | .setGlobalControl m, s => setGlobalControl m s
  | .setPWMFrequency m, s => setPWMFrequency m s
  | .resetRegisters, s => resetRegisters s

/-- Whether the method is `begin`. -/
def Op.isBegin : Op → Bool
  | .begin _ _ _ => true
  | _ => false

/-- A sequence of calls, one after the other. -/
def runAll (mem stackP stackC : Nat → Nat) (ops : List Op) (s : Machine) : Machine :=
  ops.foldl (fun s op => runOp mem stackP stackC op s) s

/-- The same machine, on whose bus `b` the transport will report the statuses `rs b`. -/
def Machine.withResults (s : Machine) (rs : Nat → List Nat) : Machine :=
  { s with wires := fun b => { s.wires b with results := rs b } }

/-- The driver after `begin`, on a bus that will report status 4 (a failure) for the next
transaction. -/
def Machine.failing : Machine := Machine.started.onWire (fun w => { w with results := [4] })

/-- The status `endTransmission` returns inside `writeByte(reg, val)`: the value the method
drops. -/
def writeByteStatus (reg val : Nat) (s : Machine) : Nat :=
  let s1 := s.onWire (fun w => w.beginTransmission s.self._addr)
  let s2 := s1.onWire (fun w => w.write reg)
  let s3 := s2.onWire (fun w => w.write val)
  (s3.wires s3.self._wire).endTransmission.2

/-- The number of times the body of the loop of `writeBytes` runs, from counter value `i`
on: the control of `writeBytesLoop`, counting the iterations. -/
def writeBytesIterations (numBytes : Nat) (i : Nat) : Nat :=
  if i < numBytes % 256 then
    writeBytesIterations numBytes ((i + 1) % 256) + 1
  else 0
termination_by numBytes % 256 - i
decreasing_by omega

/-! ## Basic facts about the private methods -/

theorem onWire_self (s : Machine) (f : TwoWire → TwoWire) : (s.onWire f).self = s.self := rfl

theorem onWire_wires_same (s : Machine) (f : TwoWire → TwoWire) :
    (s.onWire f).wires s.self._wire = f (s.wires s.self._wire) := by
  simp [Machine.onWire]

theorem onWire_wires_other (s : Machine) (f : TwoWire → TwoWire) (b : Nat)
    (hb : b ≠ s.self._wire) : (s.onWire f).wires b = s.wires b := by
  simp [Machine.onWire, Function.update_noteq hb]

theorem onWire_onWire (s : Machine) (f g : TwoWire → TwoWire) :
    (s.onWire f).onWire g = s.onWire (g ∘ f) := by
  simp [Machine.onWire]

/-- What `writeByte` does: one `TwoWire` update of the bus `_wire` points to. -/
theorem writeByte_eq (reg val : Nat) (s : Machine) :
    writeByte reg val s = s.onWire (fun w =>
      { w with transmitting := false, txAddress := s.self._addr, txBuffer := [],
               sent := w.sent ++ [⟨s.self._addr, [reg, val]⟩],
               results := w.results.tail }) := by
  simp [writeByte, onWire_onWire, Function.comp_def, TwoWire.beginTransmission,
    TwoWire.write, TwoWire.endTransmission, onWire_self]

theorem writeAll_transmitting (bs : List Nat) (w : TwoWire) (hw : w.transmitting = true) :
    w.writeAll bs = { w with txBuffer := w.txBuffer ++ bs } := by
  induction bs generalizing w with
  | nil => simp [TwoWire.writeAll]
  | cons b bs ih =>
    have h1 : (w.write b).transmitting = true := by simp [TwoWire.write, hw]
    have h2 := ih (w.write b) h1
    simp only [TwoWire.writeAll, List.foldl_cons] at h2 ⊢
    rw [h2]
    simp [TwoWire.write, hw]

/-- The loop of `writeBytes` terminates having written `val[i], …, val[numBytes-1]` in this
order: the 8-bit counter does not wrap before it reaches `numBytes`. -/
theorem writeBytesLoop_eq (numBytes : Nat) (val : Nat → Nat) (k : Nat) :
    ∀ (i : Nat) (s : Machine), i ≤ numBytes % 256 → numBytes % 256 - i = k →
      writeBytesLoop numBytes val i s =
        s.onWire (fun w => w.writeAll ((List.range' i k).map val)) := by
  induction k with
  | zero =>
    intro i s hi hk
    rw [writeBytesLoop, if_neg (by omega)]
    simp [Machine.onWire, TwoWire.writeAll]
  | succ k ih =>
    intro i s hi hk
    have hlt : i < numBytes % 256 := by omega
    have hmod : (i + 1) % 256 = i + 1 := by omega
    rw [writeBytesLoop, if_pos hlt, hmod, ih (i + 1) _ (by omega) (by omega), onWire_onWire]
    simp [Function.comp_def, TwoWire.writeAll, List.range'_succ]

/-- What `writeBytes` does: one `TwoWire` update of the bus `_wire` points to, ending one
transaction that holds the start register and then `val[0], …, val[numBytes-1]`. -/
theorem writeBytes_eq (startingReg numBytes : Nat) (val : Nat → Nat) (s : Machine) :
    writeBytes startingReg numBytes val s = s.onWire (fun w =>
      { w with transmitting := false, txAddress := s.self._addr, txBuffer := [],
               sent := w.sent ++
                 [⟨s.self._addr, startingReg :: (List.range (numBytes % 256)).map val⟩],
               results := w.results.tail }) := by
  unfold writeBytes
  simp only []
  rw [writeBytesLoop_eq numBytes val (numBytes % 256) 0 _ (Nat.zero_le _) (by omega)]
  simp only [onWire_onWire, onWire_self, Function.comp_def]
  congr 1
  funext w
  rw [writeAll_transmitting _ _ (by simp [TwoWire.write, TwoWire.beginTransmission])]
  simp [TwoWire.beginTransmission, TwoWire.write, TwoWire.endTransmission,
    List.range_eq_range']

/-- The fill loop terminates having stored `v` at the indices `i, …, 17`. -/
theorem fillLoop_eq (v : Nat) (k : Nat) :
    ∀ (i : Nat) (arr : Nat → Nat), i ≤ NUM_CHANNELS → NUM_CHANNELS - i = k →
      fillLoop v i arr = fun j => if i ≤ j ∧ j < NUM_CHANNELS then v else arr j := by
  induction k with
  | zero =>
    intro i arr hi hk
    rw [fillLoop, if_neg (by omega)]
    funext j
    rw [if_neg (by omega)]
  | succ k ih =>
    intro i arr hi hk
    have hlt : i < NUM_CHANNELS := by omega
    have hmod : (i + 1) % 256 = i + 1 := by simp only [NUM_CHANNELS] at hlt; omega
    rw [fillLoop, if_pos hlt, hmod, ih (i + 1) _ (by omega) (by omega)]
    funext j
    by_cases hj : j = i
    · subst hj; simp [hlt]
    · simp only [Function.update_noteq hj]
      by_cases h1 : i + 1 ≤ j ∧ j < NUM_CHANNELS
      · rw [if_pos h1, if_pos ⟨by omega, h1.2⟩]
      · rw [if_neg h1, if_neg (by omega)]

/-- The 18 bytes `writeBytes` reads from an array the fill loop has filled. -/
theorem map_fillLoop (v : Nat) (stack : Nat → Nat) :
    (List.range (NUM_CHANNELS % 256)).map (fillLoop v 0 stack) =
      List.replicate NUM_CHANNELS v := by
  rw [fillLoop_eq v NUM_CHANNELS 0 stack (Nat.zero_le _) rfl]
  rw [List.eq_replicate_iff]
  refine ⟨by simp [NUM_CHANNELS], fun b hb => ?_⟩
  obtain ⟨j, hj, rfl⟩ := List.mem_map.mp hb
  have hlt : j < NUM_CHANNELS := by simpa [NUM_CHANNELS] using List.mem_range.mp hj
  simp [hlt]

/-! ## Facts about `Emits` -/

theorem Emits.trans {s t u : Machine} {bus : Nat} {T U : List Transaction}
    (h1 : Emits s t bus T) (h2 : Emits t u bus U) : Emits s u bus (T ++ U) := by
  refine ⟨?_, fun b hb => ?_⟩
  · rw [h2.1, h1.1, List.append_assoc]
  · rw [h2.2 b hb, h1.2 b hb]

theorem Emits.unique {s t : Machine} {bus : Nat} {T U : List Transaction}
    (h1 : Emits s t bus T) (h2 : Emits s t bus U) : T = U :=
  List.append_cancel_left (h1.1.symm.trans h2.1)

theorem emits_onWire (s : Machine) (f : TwoWire → TwoWire) (T : List Transaction)
    (hf : ∀ w, (f w).sent = w.sent ++ T) : Emits s (s.onWire f) s.self._wire T := by
  refine ⟨?_, fun b hb => ?_⟩
  · simp [sentOn, onWire_wires_same, hf]
  · simp [sentOn, onWire_wires_other s f b hb]

theorem writeByte_self (reg val : Nat) (s : Machine) : (writeByte reg val s).self = s.self := by
  rw [writeByte_eq]; rfl

theorem writeBytes_self (r n : Nat) (val : Nat → Nat) (s : Machine) :
    (writeBytes r n val s).self = s.self := by
  rw [writeBytes_eq]; rfl

/-- Method `writeByte` emits the one transaction `[reg, val]` to the stored address. -/
theorem writeByte_emits (reg val : Nat) (s : Machine) :
    Emits s (writeByte reg val s) s.self._wire [⟨s.self._addr, [reg, val]⟩] := by
  rw [writeByte_eq]
  exact emits_onWire s _ _ (fun w => rfl)

/-- Method `writeBytes` emits the one transaction `[startingReg, val[0], …]`. -/
theorem writeBytes_emits (r n : Nat) (val : Nat → Nat) (s : Machine) :
    Emits s (writeBytes r n val s) s.self._wire
      [⟨s.self._addr, r :: (List.range (n % 256)).map val⟩] := by
  rw [writeBytes_eq]
  exact emits_onWire s _ _ (fun w => rfl)

/-- The register a channel in 1..18 maps to lies in the `uint8_t` range. -/
theorem toUint8_channel (base channel : Nat) (h1 : 1 ≤ channel) (h2 : base + channel ≤ 256) :
    toUint8 ((base : Int) + ((channel : Int) - 1)) = base + (channel - 1) := by
  unfold toUint8
  omega

theorem emits_refl (s : Machine) (bus : Nat) : Emits s s bus [] :=
  ⟨by simp, fun _ _ => rfl⟩

/-- Method `writeByte` on a driver configured for bus `bus` and address `a`. -/
theorem writeByte_emits_of (reg val bus a : Nat) (s : Machine)
    (hs : s.self = { _wire := bus, _addr := a }) :
    Emits s (writeByte reg val s) bus [⟨a, [reg, val]⟩] := by
  have h := writeByte_emits reg val s
  rw [hs] at h
  exact h

/-! ## What each public method emits -/

theorem setChannelPWM_self (c v : Nat) (s : Machine) : (setChannelPWM c v s).self = s.self :=
  writeByte_self _ _ s

theorem setChannelCurrent_self (c v : Nat) (s : Machine) :
    (setChannelCurrent c v s).self = s.self :=
  writeByte_self _ _ s

theorem updateChannels_self (s : Machine) : (updateChannels s).self = s.self :=
  writeByte_self _ _ s

theorem setAllChannelsPWM_self (stack : Nat → Nat) (v : Nat) (s : Machine) :
    (setAllChannelsPWM stack v s).self = s.self :=
  writeBytes_self _ _ _ s

theorem setAllChannelsCurrent_self (stack : Nat → Nat) (v : Nat) (s : Machine) :
    (setAllChannelsCurrent stack v s).self = s.self :=
  writeBytes_self _ _ _ s

theorem setChannelPWM_emits (s : Machine) (c v : Nat) (hc1 : 1 ≤ c) (hc2 : c ≤ 18) :
    Emits s (setChannelPWM c v s) s.self._wire [⟨s.self._addr, [0x01 + (c - 1), v]⟩] := by
  unfold setChannelPWM
  rw [toUint8_channel REG_PWM c hc1 (by simp only [REG_PWM]; omega)]
  exact writeByte_emits _ _ s

theorem setChannelCurrent_emits (s : Machine) (c v : Nat) (hc1 : 1 ≤ c) (hc2 : c ≤ 18) :
    Emits s (setChannelCurrent c v s) s.self._wire [⟨s.self._addr, [0x14 + (c - 1), v]⟩] := by
  unfold setChannelCurrent
  rw [toUint8_channel REG_LED_CONTROL c hc1 (by simp only [REG_LED_CONTROL]; omega)]
  exact writeByte_emits _ _ s

theorem updateChannels_emits (s : Machine) :
    Emits s (updateChannels s) s.self._wire [⟨s.self._addr, [0x13, 0x00]⟩] :=
  writeByte_emits REG_UPDATE 0x00 s

theorem setAllChannelsPWM_emits (stack : Nat → Nat) (s : Machine) (v : Nat) :
    Emits s (setAllChannelsPWM stack v s) s.self._wire
      [⟨s.self._addr, 0x01 :: List.replicate 18 v⟩] := by
  have h1 := writeBytes_emits REG_PWM NUM_CHANNELS (fillLoop v 0 stack) s
  rw [map_fillLoop] at h1
  exact h1

theorem setAllChannelsCurrent_emits (stack : Nat → Nat) (s : Machine) (v : Nat) :
    Emits s (setAllChannelsCurrent stack v s) s.self._wire
      [⟨s.self._addr, 0x14 :: List.replicate 18 v⟩] := by
  have h1 := writeBytes_emits REG_LED_CONTROL NUM_CHANNELS (fillLoop v 0 stack) s
  rw [map_fillLoop] at h1
  exact h1

/-- A control method on a driver configured for bus `bus` and address `a`: the byte written
is the value of the `bool` argument. -/
theorem control_emits_of (reg : Nat) (b : Bool) (val bus a : Nat) (s : Machine)
    (hs : s.self = { _wire := bus, _addr := a }) (hval : boolVal b = val) :
    Emits s (writeByte reg (0x00 ||| boolVal b) s) bus [⟨a, [reg, val]⟩] := by
  have h := writeByte_emits_of reg (0x00 ||| boolVal b) bus a s hs
  have e : (0x00 ||| boolVal b) = val := by rw [Nat.zero_or, hval]
  rw [e] at h ⊢
  exact h

/-! ## Claims -/

/-- C1: for every channel `c` in 1..18 and byte `v`, `setChannelPWM(c, v)` followed by
`updateChannels()` emits exactly two transactions on the driver's bus, both to the device
address `_addr` that `begin` stored: `[0x01 + (c-1), v]` and then `[0x13, 0x00]`; exactly
one of them is addressed to the PWM register `REG_PWM + (c-1)`, and it carries `v`. -/
theorem C1_setChannelPWM_then_updateChannels (s : Machine) (c v : Nat)
    (hc1 : 1 ≤ c) (hc2 : c ≤ 18) (_hv : v < 256) :
    Emits s (updateChannels (setChannelPWM c v s)) s.self._wire
        [⟨s.self._addr, [0x01 + (c - 1), v]⟩, ⟨s.self._addr, [0x13, 0x00]⟩] ∧
      addressedTo (REG_PWM + (c - 1))
          [⟨s.self._addr, [0x01 + (c - 1), v]⟩, ⟨s.self._addr, [0x13, 0x00]⟩] =
        [⟨s.self._addr, [REG_PWM + (c - 1), v]⟩] := by
  constructor
  · have h1 := setChannelPWM_emits s c v hc1 hc2
    have h2 := updateChannels_emits (setChannelPWM c v s)
    rw [setChannelPWM_self] at h2
    exact Emits.trans h1 h2
  · have hne : ¬ (19 = 1 + (c - 1)) := by omega
    simp [addressedTo, REG_PWM, hne]

/-- C1 at channel 5, value 200, right after `begin` with the ground-strap address. -/
theorem C1_setChannelPWM_then_updateChannels_witness :
    Emits Machine.started (updateChannels (setChannelPWM 5 200 Machine.started)) 0
        [⟨0x6C, [0x05, 200]⟩, ⟨0x6C, [0x13, 0x00]⟩] ∧
      addressedTo 0x05 [⟨0x6C, [0x05, 200]⟩, ⟨0x6C, [0x13, 0x00]⟩] = [⟨0x6C, [0x05, 200]⟩] :=
  C1_setChannelPWM_then_updateChannels Machine.started 5 200 (by decide) (by decide)
    (by decide)

/-- C2: for every byte `v`, `setAllChannelsPWM(v)` emits exactly one transaction, whose
payload is the 19 bytes `[0x01, v, …, v]` (the register address and 18 copies of `v`); it
never emits 18 transactions. -/
theorem C2_setAllChannelsPWM_one_transaction (stack : Nat → Nat) (s : Machine) (v : Nat)
    (_hv : v < 256) :
    Emits s (setAllChannelsPWM stack v s) s.self._wire
        [⟨s.self._addr, 0x01 :: List.replicate 18 v⟩] ∧
      (0x01 :: List.replicate 18 v).length = 19 ∧
      ∀ T, Emits s (setAllChannelsPWM stack v s) s.self._wire T → T.length = 1 := by
  have h := setAllChannelsPWM_emits stack s v
  refine ⟨h, by simp, fun T hT => ?_⟩
  rw [Emits.unique hT h]
  rfl

/-- C2 at value 200, right after `begin`. -/
theorem C2_setAllChannelsPWM_one_transaction_witness :
    Emits Machine.started (setAllChannelsPWM (fun _ => 0) 200 Machine.started) 0
        [⟨0x6C, 0x01 :: List.replicate 18 200⟩] ∧
      (0x01 :: List.replicate 18 200).length = 19 ∧
      ∀ T, Emits Machine.started (setAllChannelsPWM (fun _ => 0) 200 Machine.started) 0 T →
        T.length = 1 :=
  C2_setAllChannelsPWM_one_transaction (fun _ => 0) Machine.started 200 (by decide)

/-- C4: for every device address `a` and frequency selector `f` in {0, 1},
`begin(bus, a, f)` emits exactly four transactions on `bus`, all addressed to `a`, in this
order: reset `[0x2F, 0x00]`, operating mode normal `[0x00, 0x01]`, output frequency
`[0x27, f]`, global control enabled `[0x26, 0x00]`. -/
theorem C4_begin_four_transactions (s : Machine) (bus a f : Nat) (_ha : a < 256)
    (hf : f = 0 ∨ f = 1) :
    Emits s (begin bus a f s) bus
      [⟨a, [0x2F, 0x00]⟩, ⟨a, [0x00, 0x01]⟩, ⟨a, [0x27, f]⟩, ⟨a, [0x26, 0x00]⟩] := by
  have hval : boolVal (f != 0) = f := by
    rcases hf with rfl | rfl <;> decide
  show Emits s (setGlobalControl (GLOBAL_LED_ENABLE != 0) (setPWMFrequency (f != 0)
    (setOperationMode (OP_MODE_NORMAL != 0)
      (resetRegisters { s with self := { _wire := bus, _addr := a } })))) bus _
  generalize hs0 : ({ s with self := { _wire := bus, _addr := a } } : Machine) = s0
  have e0 : Emits s s0 bus [] := by
    subst hs0
    exact ⟨by simp [sentOn], fun _ _ => rfl⟩
  have hself0 : s0.self = { _wire := bus, _addr := a } := by subst hs0; rfl
  have e1 : Emits s0 (resetRegisters s0) bus [⟨a, [0x2F, 0x00]⟩] :=
    writeByte_emits_of REG_RESET 0x00 bus a s0 hself0
  have hself1 : (resetRegisters s0).self = { _wire := bus, _addr := a } :=
    (writeByte_self _ _ _).trans hself0
  generalize resetRegisters s0 = s1 at e1 hself1
  have e2 : Emits s1 (setOperationMode (OP_MODE_NORMAL != 0) s1) bus [⟨a, [0x00, 0x01]⟩] :=
    control_emits_of REG_SW_SHUTDOWN (OP_MODE_NORMAL != 0) 0x01 bus a s1 hself1 rfl
  have hself2 : (setOperationMode (OP_MODE_NORMAL != 0) s1).self =
      { _wire := bus, _addr := a } := (writeByte_self _ _ _).trans hself1
  generalize setOperationMode (OP_MODE_NORMAL != 0) s1 = s2 at e2 hself2
  have e3 : Emits s2 (setPWMFrequency (f != 0) s2) bus [⟨a, [0x27, f]⟩] :=
    control_emits_of REG_OUTPUT_FREQ (f != 0) f bus a s2 hself2 hval
  have hself3 : (setPWMFrequency (f != 0) s2).self = { _wire := bus, _addr := a } :=
    (writeByte_self _ _ _).trans hself2
  generalize setPWMFrequency (f != 0) s2 = s3 at e3 hself3
  have e4 : Emits s3 (setGlobalControl (GLOBAL_LED_ENABLE != 0) s3) bus
      [⟨a, [0x26, 0x00]⟩] :=
    control_emits_of REG_GLOBAL_CONTROL (GLOBAL_LED_ENABLE != 0) 0x00 bus a s3 hself3 rfl
  exact (((e0.trans e1).trans e2).trans e3).trans e4

/-- C4 at the ground-strap address 0x6C and the high-frequency selector 0. -/
theorem C4_begin_four_transactions_witness :
    Emits Machine.idle (begin 0 0x6C 0 Machine.idle) 0
      [⟨0x6C, [0x2F, 0x00]⟩, ⟨0x6C, [0x00, 0x01]⟩, ⟨0x6C, [0x27, 0]⟩, ⟨0x6C, [0x26, 0x00]⟩] :=
  C4_begin_four_transactions Machine.idle 0 0x6C 0 (by decide) (Or.inl rfl)

/-- C6: `updateChannels()` emits exactly one transaction, to the stored device address,
with the two-byte payload `[0x13, 0x00]`, in whatever state earlier calls left the driver
and its bus. -/
theorem C6_updateChannels_one_transaction (s : Machine) :
    Emits s (updateChannels s) s.self._wire [⟨s.self._addr, [0x13, 0x00]⟩] :=
  writeByte_emits REG_UPDATE 0x00 s

/-- C7: for every channel `c` in 1..18 and every byte `code`, one of the 16 datasheet
levels or not, `setChannelCurrent(c, code)` emits exactly one transaction with payload
`[0x14 + (c-1), code]`: the code goes out unchanged. -/
theorem C7_setChannelCurrent_verbatim (s : Machine) (c code : Nat)
    (hc1 : 1 ≤ c) (hc2 : c ≤ 18) (_hcode : code < 256) :
    Emits s (setChannelCurrent c code s) s.self._wire
      [⟨s.self._addr, [0x14 + (c - 1), code]⟩] := by
  exact setChannelCurrent_emits s c code hc1 hc2

/-- C7 at channel 18 and the byte 0xFF, which is not a datasheet level. -/
theorem C7_setChannelCurrent_verbatim_witness :
    Emits Machine.started (setChannelCurrent 18 0xFF Machine.started) 0
      [⟨0x6C, [0x25, 0xFF]⟩] :=
  C7_setChannelCurrent_verbatim Machine.started 18 0xFF (by decide) (by decide) (by decide)

/-- C8: for every byte `code`, `setAllChannelsCurrent(code)` emits exactly one
transaction, whose payload is the 19 bytes `[0x14, code, …, code]` (the register address
and 18 copies of `code`). -/
theorem C8_setAllChannelsCurrent_one_transaction (stack : Nat → Nat) (s : Machine)
    (code : Nat) (_hcode : code < 256) :
    Emits s (setAllChannelsCurrent stack code s) s.self._wire
        [⟨s.self._addr, 0x14 :: List.replicate 18 code⟩] ∧
      (0x14 :: List.replicate 18 code).length = 19 := by
  exact ⟨setAllChannelsCurrent_emits stack s code, by simp⟩

/-- C8 at the code 0x31, right after `begin`. -/
theorem C8_setAllChannelsCurrent_one_transaction_witness :
    Emits Machine.started (setAllChannelsCurrent (fun _ => 0) 0x31 Machine.started) 0
        [⟨0x6C, 0x14 :: List.replicate 18 0x31⟩] ∧
      (0x14 :: List.replicate 18 0x31).length = 19 :=
  C8_setAllChannelsCurrent_one_transaction (fun _ => 0) Machine.started 0x31 (by decide)

/-- C10: `setAllChannels(pwm, cur)` is `setAllChannelsPWM(pwm)` followed by
`setAllChannelsCurrent(cur)` and nothing more: it emits exactly the two transactions
`[0x01, pwm ×18]` and `[0x14, cur ×18]`, which are what the two setters emit one after the
other; none of the registers written is the update register (no commit). -/
theorem C10_setAllChannels_composition (stackP stackC : Nat → Nat) (s : Machine)
    (pwm cur : Nat) (_hpwm : pwm < 256) (_hcur : cur < 256) :
    setAllChannels stackP stackC pwm cur s =
        setAllChannelsCurrent stackC cur (setAllChannelsPWM stackP pwm s) ∧
      Emits s (setAllChannels stackP stackC pwm cur s) s.self._wire
        [⟨s.self._addr, 0x01 :: List.replicate 18 pwm⟩,
         ⟨s.self._addr, 0x14 :: List.replicate 18 cur⟩] ∧
      Emits s (setAllChannelsPWM stackP pwm s) s.self._wire
        [⟨s.self._addr, 0x01 :: List.replicate 18 pwm⟩] ∧
      Emits (setAllChannelsPWM stackP pwm s)
        (setAllChannelsCurrent stackC cur (setAllChannelsPWM stackP pwm s)) s.self._wire
        [⟨s.self._addr, 0x14 :: List.replicate 18 cur⟩] ∧
      ∀ t ∈ [(⟨s.self._addr, 0x01 :: List.replicate 18 pwm⟩ : Transaction),
             ⟨s.self._addr, 0x14 :: List.replicate 18 cur⟩],
        REG_UPDATE ∉ registersWritten t := by
  have h1 := setAllChannelsPWM_emits stackP s pwm
  have h2 := setAllChannelsCurrent_emits stackC (setAllChannelsPWM stackP pwm s) cur
  rw [setAllChannelsPWM_self] at h2
  refine ⟨rfl, Emits.trans h1 h2, h1, h2, ?_⟩
  intro t ht
  simp only [List.mem_cons, List.mem_singleton, List.not_mem_nil, or_false] at ht
  rcases ht with rfl | rfl <;>
    simp only [registersWritten, REG_UPDATE, List.mem_range'_1, List.length_replicate] <;>
    omega

/-- C10 at duty 200 and current code 0x31, right after `begin`. -/
theorem C10_setAllChannels_composition_witness :
    setAllChannels (fun _ => 0) (fun _ => 0) 200 0x31 Machine.started =
        setAllChannelsCurrent (fun _ => 0) 0x31
          (setAllChannelsPWM (fun _ => 0) 200 Machine.started) ∧
      Emits Machine.started (setAllChannels (fun _ => 0) (fun _ => 0) 200 0x31 Machine.started)
        0 [⟨0x6C, 0x01 :: List.replicate 18 200⟩, ⟨0x6C, 0x14 :: List.replicate 18 0x31⟩] ∧
      Emits Machine.started (setAllChannelsPWM (fun _ => 0) 200 Machine.started) 0
        [⟨0x6C, 0x01 :: List.replicate 18 200⟩] ∧
      Emits (setAllChannelsPWM (fun _ => 0) 200 Machine.started)
        (setAllChannelsCurrent (fun _ => 0) 0x31
          (setAllChannelsPWM (fun _ => 0) 200 Machine.started)) 0
        [⟨0x6C, 0x14 :: List.replicate 18 0x31⟩] ∧
      ∀ t ∈ [(⟨0x6C, 0x01 :: List.replicate 18 200⟩ : Transaction),
             ⟨0x6C, 0x14 :: List.replicate 18 0x31⟩],
        REG_UPDATE ∉ registersWritten t :=
  C10_setAllChannels_composition (fun _ => 0) (fun _ => 0) Machine.started 200 0x31
    (by decide) (by decide)

/-! ## Facts about the device -/

theorem writeRegister_active (d : Device) (r v : Nat) (h1 : r ≠ REG_UPDATE)
    (h2 : r ≠ REG_RESET) : (d.writeRegister r v).active = d.active := by
  simp [Device.writeRegister, h1, h2]

theorem writeBurst_active (vs : List Nat) :
    ∀ (d : Device) (r : Nat),
      (∀ x ∈ List.range' r vs.length, x ≠ REG_UPDATE ∧ x ≠ REG_RESET) →
      (d.writeBurst r vs).active = d.active := by
  induction vs with
  | nil => intro d r _; rfl
  | cons v vs ih =>
    intro d r h
    have hr := h r (by simp [List.mem_range'_1])
    have hrest : ∀ x ∈ List.range' (r + 1) vs.length, x ≠ REG_UPDATE ∧ x ≠ REG_RESET := by
      intro x hx
      apply h x
      simp only [List.mem_range'_1, List.length_cons] at hx ⊢
      omega
    simp only [Device.writeBurst]
    rw [ih _ _ hrest, writeRegister_active d r v hr.1 hr.2]

theorem inChannelBlocks_ne (r : Nat) (h : inChannelBlocks r) :
    r ≠ REG_SW_SHUTDOWN ∧ r ≠ REG_UPDATE ∧ r ≠ REG_GLOBAL_CONTROL ∧ r ≠ REG_OUTPUT_FREQ ∧
      r ≠ REG_RESET := by
  simp only [inChannelBlocks, REG_PWM, REG_LED_CONTROL, NUM_CHANNELS] at h
  simp only [REG_SW_SHUTDOWN, REG_UPDATE, REG_GLOBAL_CONTROL, REG_OUTPUT_FREQ, REG_RESET]
  omega

theorem receive_active (d : Device) (t : Transaction)
    (h : ∀ r ∈ registersWritten t, inChannelBlocks r) : (d.receive t).active = d.active := by
  unfold Device.receive
  unfold registersWritten at h
  split
  · rfl
  · next r ds hp =>
    rw [hp] at h
    exact writeBurst_active ds d r (fun x hx =>
      ⟨(inChannelBlocks_ne x (h x hx)).2.1, (inChannelBlocks_ne x (h x hx)).2.2.2.2⟩)

/-- Transactions that write only PWM and current registers leave the active state of the
device as it was. -/
theorem receiveAll_active (T : List Transaction) :
    ∀ (d : Device), (∀ t ∈ T, ∀ r ∈ registersWritten t, inChannelBlocks r) →
      (d.receiveAll T).active = d.active := by
  induction T with
  | nil => intro d _; rfl
  | cons t T ih =>
    intro d h
    have h1 := receive_active d t (h t (by simp))
    have h2 := ih (d.receive t) (fun u hu => h u (by simp [hu]))
    simp only [Device.receiveAll, List.foldl_cons] at h2 ⊢
    rw [h2, h1]

theorem block_inChannelBlocks_pwm (a : Nat) (vs : List Nat) (hl : vs.length = 18) :
    ∀ r ∈ registersWritten ⟨a, 0x01 :: vs⟩, inChannelBlocks r := by
  intro r hr
  simp only [registersWritten, List.mem_range'_1, hl] at hr
  simp only [inChannelBlocks, REG_PWM, REG_LED_CONTROL, NUM_CHANNELS]
  omega

theorem block_inChannelBlocks_current (a : Nat) (vs : List Nat) (hl : vs.length = 18) :
    ∀ r ∈ registersWritten ⟨a, 0x14 :: vs⟩, inChannelBlocks r := by
  intro r hr
  simp only [registersWritten, List.mem_range'_1, hl] at hr
  simp only [inChannelBlocks, REG_PWM, REG_LED_CONTROL, NUM_CHANNELS]
  omega

theorem single_inChannelBlocks (a base c v : Nat) (h1 : 1 ≤ c) (h2 : c ≤ 18)
    (hb : base = 0x01 ∨ base = 0x14) :
    ∀ r ∈ registersWritten ⟨a, [base + (c - 1), v]⟩, inChannelBlocks r := by
  intro r hr
  simp only [registersWritten, List.mem_range'_1, List.length_singleton] at hr
  simp only [inChannelBlocks, REG_PWM, REG_LED_CONTROL, NUM_CHANNELS]
  omega

/-- What `setChannel` emits: two block writes of 18 bytes read from data memory. -/
theorem setChannel_emits (mem : Nat → Nat) (s : Machine) (c pwm cur : Nat) :
    Emits s (setChannel mem c pwm cur s) s.self._wire
      [⟨s.self._addr, 0x01 :: (List.range 18).map (fun i => mem (pwm + i))⟩,
       ⟨s.self._addr, 0x14 :: (List.range 18).map (fun i => mem (cur + i))⟩] := by
  have h1 := writeBytes_emits REG_PWM NUM_CHANNELS (fun i => mem (pwm + i)) s
  have h2 := writeBytes_emits REG_LED_CONTROL NUM_CHANNELS (fun i => mem (cur + i))
    (writeBytes REG_PWM NUM_CHANNELS (fun i => mem (pwm + i)) s)
  rw [writeBytes_self] at h2
  exact Emits.trans h1 h2

/-- C3: `setChannel(c, pwm, cur)` (for instance `setChannel(5, 200, 0x31)`) does not emit
the two single-byte writes `[0x01 + (c-1), pwm]`, `[0x14 + (c-1), cur]` of
`setChannelPWM(c, pwm)` followed by `setChannelCurrent(c, cur)`: whatever the channel, it
emits two 19-byte transactions that start at the block bases 0x01 and 0x14 and carry 18
bytes of data memory read from the addresses `pwm`.. and `cur`... -/
theorem C3_setChannel_writes_whole_blocks (mem : Nat → Nat) (s : Machine) (c pwm cur : Nat) :
    Emits s (setChannel mem c pwm cur s) s.self._wire
        [⟨s.self._addr, 0x01 :: (List.range 18).map (fun i => mem (pwm + i))⟩,
         ⟨s.self._addr, 0x14 :: (List.range 18).map (fun i => mem (cur + i))⟩] ∧
      ¬ Emits s (setChannel mem c pwm cur s) s.self._wire
        [⟨s.self._addr, [0x01 + (c - 1), pwm]⟩, ⟨s.self._addr, [0x14 + (c - 1), cur]⟩] := by
  have h := setChannel_emits mem s c pwm cur
  refine ⟨h, fun h2 => ?_⟩
  have e := Emits.unique h h2
  simp only [List.cons.injEq, Transaction.mk.injEq, true_and, and_true] at e
  have hl := congrArg List.length e.1.2
  simp at hl

/-- C5: no PWM or current setter commits. For each of `setChannelPWM`,
`setAllChannelsPWM`, `setChannelCurrent`, `setAllChannelsCurrent`, `setChannel` and
`setAllChannels`, with the channel in 1..18 and byte values, every register written by the
transactions it emits (one register per data byte, counted from the start address) lies in
the PWM block 0x01..0x12 or the current block 0x14..0x25, so it is none of 0x00, 0x13, 0x26,
0x27, 0x2F; and a device that latches only on a write to 0x13 has the same active state
after receiving these transactions as before. -/
theorem C5_setters_do_not_commit (mem stackP stackC : Nat → Nat) (s : Machine) (op : Setter)
    (hop : op.inRange = true) :
    ∃ T, Emits s (op.run mem stackP stackC s) s.self._wire T ∧
      (∀ t ∈ T, ∀ r ∈ registersWritten t,
        inChannelBlocks r ∧ r ≠ REG_SW_SHUTDOWN ∧ r ≠ REG_UPDATE ∧ r ≠ REG_GLOBAL_CONTROL ∧
          r ≠ REG_OUTPUT_FREQ ∧ r ≠ REG_RESET) ∧
      ∀ dev : Device, (dev.receiveAll T).active = dev.active := by
  have key : ∃ T, Emits s (op.run mem stackP stackC s) s.self._wire T ∧
      ∀ t ∈ T, ∀ r ∈ registersWritten t, inChannelBlocks r := by
    cases op with
    | channelPWM c v =>
      simp only [Setter.inRange, decide_eq_true_eq] at hop
      refine ⟨_, setChannelPWM_emits s c v hop.1 hop.2.1, fun t ht => ?_⟩
      rw [List.mem_singleton] at ht
      subst ht
      exact single_inChannelBlocks _ 0x01 c v hop.1 hop.2.1 (Or.inl rfl)
    | allChannelsPWM v =>
      refine ⟨_, setAllChannelsPWM_emits stackP s v, fun t ht => ?_⟩
      rw [List.mem_singleton] at ht
      subst ht
      exact block_inChannelBlocks_pwm _ _ (by simp)
    | channelCurrent c v =>
      simp only [Setter.inRange, decide_eq_true_eq] at hop
      refine ⟨_, setChannelCurrent_emits s c v hop.1 hop.2.1, fun t ht => ?_⟩
      rw [List.mem_singleton] at ht
      subst ht
      exact single_inChannelBlocks _ 0x14 c v hop.1 hop.2.1 (Or.inr rfl)
    | allChannelsCurrent v =>
      refine ⟨_, setAllChannelsCurrent_emits stackC s v, fun t ht => ?_⟩
      rw [List.mem_singleton] at ht
      subst ht
      exact block_inChannelBlocks_current _ _ (by simp)
    | channel c p q =>
      refine ⟨_, setChannel_emits mem s c p q, fun t ht => ?_⟩
      simp only [List.mem_cons, List.mem_singleton, List.not_mem_nil, or_false] at ht
      rcases ht with rfl | rfl
      · exact block_inChannelBlocks_pwm _ _ (by simp)
      · exact block_inChannelBlocks_current _ _ (by simp)
    | allChannels p q =>
      have h1 := setAllChannelsPWM_emits stackP s p
      have h2 := setAllChannelsCurrent_emits stackC (setAllChannelsPWM stackP p s) q
      rw [setAllChannelsPWM_self] at h2
      refine ⟨_, Emits.trans h1 h2, fun t ht => ?_⟩
      simp only [List.cons_append, List.nil_append, List.mem_cons, List.mem_singleton,
        List.not_mem_nil, or_false] at ht
      rcases ht with rfl | rfl
      · exact block_inChannelBlocks_pwm _ _ (by simp)
      · exact block_inChannelBlocks_current _ _ (by simp)
  obtain ⟨T, hT, hblocks⟩ := key
  exact ⟨T, hT, fun t ht r hr => ⟨hblocks t ht r hr, inChannelBlocks_ne r (hblocks t ht r hr)⟩,
    fun dev => receiveAll_active T dev hblocks⟩

/-- C5 at `setAllChannels(200, 0x31)`, right after `begin`. -/
theorem C5_setters_do_not_commit_witness :
    ∃ T, Emits Machine.started
        ((Setter.allChannels 200 0x31).run (fun _ => 0) (fun _ => 0) (fun _ => 0)
          Machine.started) 0 T ∧
      (∀ t ∈ T, ∀ r ∈ registersWritten t,
        inChannelBlocks r ∧ r ≠ REG_SW_SHUTDOWN ∧ r ≠ REG_UPDATE ∧ r ≠ REG_GLOBAL_CONTROL ∧
          r ≠ REG_OUTPUT_FREQ ∧ r ≠ REG_RESET) ∧
      ∀ dev : Device, (dev.receiveAll T).active = dev.active :=
  C5_setters_do_not_commit (fun _ => 0) (fun _ => 0) (fun _ => 0) Machine.started
    (Setter.allChannels 200 0x31) (by decide)

/-! ## Batched and individual writes -/

/-- A sequence of calls, each emitting one transaction on the driver's bus and leaving the
driver's fields alone, emits the sequence of those transactions. -/
theorem foldl_emits (f : Nat → Machine → Machine) (g : Nat → List Nat) (P : Nat → Prop)
    (hself : ∀ c s, (f c s).self = s.self)
    (hf : ∀ c s, P c → Emits s (f c s) s.self._wire [⟨s.self._addr, g c⟩]) :
    ∀ (cs : List Nat) (s : Machine), (∀ c ∈ cs, P c) →
      Emits s (cs.foldl (fun s c => f c s) s) s.self._wire
        (cs.map (fun c => ⟨s.self._addr, g c⟩)) := by
  intro cs
  induction cs with
  | nil => intro s _; exact emits_refl s _
  | cons c cs ih =>
    intro s h
    have h1 := hf c s (h c (by simp))
    have h2 := ih (f c s) (fun d hd => h d (by simp [hd]))
    rw [hself] at h2
    exact Emits.trans h1 h2

/-- The device ends in the same state after the one batched write of `v` to the 18 registers
from `base` on as after the 18 single writes. -/
theorem receiveAll_batch_eq (dev : Device) (a base v : Nat) :
    dev.receiveAll [⟨a, base :: List.replicate 18 v⟩] =
      dev.receiveAll ((List.range' 1 18).map (fun c => ⟨a, [base + (c - 1), v]⟩)) := by
  rfl

/-- C9: batched and individual writes agree on the final register contents.
`setAllChannelsPWM(v)` emits one transaction, the calls `setChannelPWM(1, v)`, …,
`setChannelPWM(18, v)` in sequence emit 18, and a device that stores the data bytes of a
transaction at consecutive registers ends in the same state after the one as after the
18, whatever state it started in; likewise `setAllChannelsCurrent(v)` against the 18 calls
of `setChannelCurrent`. -/
theorem C9_batched_equals_individual (stack : Nat → Nat) (s : Machine) (v : Nat)
    (_hv : v < 256) :
    (∃ Tb Ti, Emits s (setAllChannelsPWM stack v s) s.self._wire Tb ∧
        Emits s (forEachChannel (fun c => setChannelPWM c v) s) s.self._wire Ti ∧
        Tb.length = 1 ∧ Ti.length = 18 ∧
        ∀ dev : Device, dev.receiveAll Tb = dev.receiveAll Ti) ∧
      (∃ Tb Ti, Emits s (setAllChannelsCurrent stack v s) s.self._wire Tb ∧
        Emits s (forEachChannel (fun c => setChannelCurrent c v) s) s.self._wire Ti ∧
        Tb.length = 1 ∧ Ti.length = 18 ∧
        ∀ dev : Device, dev.receiveAll Tb = dev.receiveAll Ti) := by
  have hmem : ∀ c ∈ List.range' 1 NUM_CHANNELS, 1 ≤ c ∧ c ≤ 18 := by
    intro c hc
    simp only [List.mem_range'_1, NUM_CHANNELS] at hc
    omega
  constructor
  · refine ⟨_, _, setAllChannelsPWM_emits stack s v,
      foldl_emits (fun c => setChannelPWM c v) (fun c => [0x01 + (c - 1), v])
        (fun c => 1 ≤ c ∧ c ≤ 18) (fun c s => setChannelPWM_self c v s)
        (fun c s hc => setChannelPWM_emits s c v hc.1 hc.2) _ s hmem,
      rfl, rfl, fun dev => receiveAll_batch_eq dev _ 0x01 v⟩
  · refine ⟨_, _, setAllChannelsCurrent_emits stack s v,
      foldl_emits (fun c => setChannelCurrent c v) (fun c => [0x14 + (c - 1), v])
        (fun c => 1 ≤ c ∧ c ≤ 18) (fun c s => setChannelCurrent_self c v s)
        (fun c s hc => setChannelCurrent_emits s c v hc.1 hc.2) _ s hmem,
      rfl, rfl, fun dev => receiveAll_batch_eq dev _ 0x14 v⟩

/-- C9 at value 200, right after `begin`. -/
theorem C9_batched_equals_individual_witness :
    (∃ Tb Ti, Emits Machine.started (setAllChannelsPWM (fun _ => 0) 200 Machine.started) 0 Tb ∧
        Emits Machine.started (forEachChannel (fun c => setChannelPWM c 200) Machine.started)
          0 Ti ∧
        Tb.length = 1 ∧ Ti.length = 18 ∧
        ∀ dev : Device, dev.receiveAll Tb = dev.receiveAll Ti) ∧
      (∃ Tb Ti,
        Emits Machine.started (setAllChannelsCurrent (fun _ => 0) 200 Machine.started) 0 Tb ∧
        Emits Machine.started
          (forEachChannel (fun c => setChannelCurrent c 200) Machine.started) 0 Ti ∧
        Tb.length = 1 ∧ Ti.length = 18 ∧
        ∀ dev : Device, dev.receiveAll Tb = dev.receiveAll Ti) :=
  C9_batched_equals_individual (fun _ => 0) Machine.started 200 (by decide)

/-! ## The control methods -/

/-- A control method (`0x00 | mode` written to `reg`) emits one two-byte transaction. -/
theorem control_emits (reg : Nat) (b : Bool) (s : Machine) :
    Emits s (writeByte reg (0x00 ||| boolVal b) s) s.self._wire
      [⟨s.self._addr, [reg, if b then 1 else 0]⟩] :=
  control_emits_of reg b (if b then 1 else 0) s.self._wire s.self._addr s rfl rfl

/-- C11: each single-register control operation emits exactly one two-byte transaction at
the address the register map fixes, with the boolean argument written as 0 or 1:
`setOperationMode(b)` emits `[0x00, b]`, `setGlobalControl(b)` emits `[0x26, b]`,
`setPWMFrequency(b)` emits `[0x27, b]`, and `resetRegisters()` emits `[0x2F, 0x00]` and
nothing after it (no commit). -/
theorem C11_control_operations (s : Machine) (b : Bool) :
    Emits s (setOperationMode b s) s.self._wire
        [⟨s.self._addr, [0x00, if b then 1 else 0]⟩] ∧
      Emits s (setGlobalControl b s) s.self._wire
        [⟨s.self._addr, [0x26, if b then 1 else 0]⟩] ∧
      Emits s (setPWMFrequency b s) s.self._wire
        [⟨s.self._addr, [0x27, if b then 1 else 0]⟩] ∧
      Emits s (resetRegisters s) s.self._wire [⟨s.self._addr, [0x2F, 0x00]⟩] :=
  ⟨control_emits REG_SW_SHUTDOWN b s, control_emits REG_GLOBAL_CONTROL b s,
    control_emits REG_OUTPUT_FREQ b s, writeByte_emits REG_RESET 0x00 s⟩

/-! ## Channel numbers outside 1..18 -/

/-- The register `base + (channel - 1)`, computed in `int` and converted to `uint8_t`, for
any channel number. -/
theorem toUint8_any (base channel : Nat) (hb : 1 ≤ base) :
    toUint8 ((base : Int) + ((channel : Int) - 1)) = (base + channel - 1) % 256 := by
  unfold toUint8
  omega

theorem setChannelPWM_emits_any (s : Machine) (channel v : Nat) :
    Emits s (setChannelPWM channel v s) s.self._wire
      [⟨s.self._addr, [(0x01 + channel - 1) % 256, v]⟩] := by
  unfold setChannelPWM
  rw [toUint8_any REG_PWM channel (by decide)]
  exact writeByte_emits _ _ s

theorem setChannelCurrent_emits_any (s : Machine) (channel v : Nat) :
    Emits s (setChannelCurrent channel v s) s.self._wire
      [⟨s.self._addr, [(0x14 + channel - 1) % 256, v]⟩] := by
  unfold setChannelCurrent
  rw [toUint8_any REG_LED_CONTROL channel (by decide)]
  exact writeByte_emits _ _ s

/-- C14: the per-channel setters check no bounds. For every channel value in 0..255,
`setChannelPWM(channel, v)` emits exactly one transaction `[(0x01 + channel - 1) mod 256, v]`
and `setChannelCurrent(channel, v)` emits exactly one transaction
`[(0x14 + channel - 1) mod 256, v]`. So `setChannelPWM(0, v)` writes `v` to the shutdown
register 0x00, `setChannelPWM(19, v)` and `setChannelCurrent(0, v)` write to the update
register 0x13, which makes the device latch, and `setChannelCurrent(19, v)` writes to the
global-control register 0x26. -/
theorem C14_no_bounds_check (s : Machine) (channel v : Nat) (_hch : channel < 256)
    (_hv : v < 256) :
    Emits s (setChannelPWM channel v s) s.self._wire
        [⟨s.self._addr, [(0x01 + channel - 1) % 256, v]⟩] ∧
      Emits s (setChannelCurrent channel v s) s.self._wire
        [⟨s.self._addr, [(0x14 + channel - 1) % 256, v]⟩] ∧
      Emits s (setChannelPWM 0 v s) s.self._wire [⟨s.self._addr, [REG_SW_SHUTDOWN, v]⟩] ∧
      Emits s (setChannelPWM 19 v s) s.self._wire [⟨s.self._addr, [REG_UPDATE, v]⟩] ∧
      Emits s (setChannelCurrent 0 v s) s.self._wire [⟨s.self._addr, [REG_UPDATE, v]⟩] ∧
      Emits s (setChannelCurrent 19 v s) s.self._wire
        [⟨s.self._addr, [REG_GLOBAL_CONTROL, v]⟩] ∧
      ∀ dev : Device, (dev.receiveAll [⟨s.self._addr, [REG_UPDATE, v]⟩]).active = dev.shadow :=
  ⟨setChannelPWM_emits_any s channel v, setChannelCurrent_emits_any s channel v,
    setChannelPWM_emits_any s 0 v, setChannelPWM_emits_any s 19 v,
    setChannelCurrent_emits_any s 0 v, setChannelCurrent_emits_any s 19 v, fun _ => rfl⟩

/-- C14 at channel 255 and value 200, right after `begin`: the registers are 0xFF and
0x12. -/
theorem C14_no_bounds_check_witness :
    Emits Machine.started (setChannelPWM 255 200 Machine.started) 0 [⟨0x6C, [0xFF, 200]⟩] ∧
      Emits Machine.started (setChannelCurrent 255 200 Machine.started) 0
        [⟨0x6C, [0x12, 200]⟩] ∧
      Emits Machine.started (setChannelPWM 0 200 Machine.started) 0 [⟨0x6C, [0x00, 200]⟩] ∧
      Emits Machine.started (setChannelPWM 19 200 Machine.started) 0 [⟨0x6C, [0x13, 200]⟩] ∧
      Emits Machine.started (setChannelCurrent 0 200 Machine.started) 0
        [⟨0x6C, [0x13, 200]⟩] ∧
      Emits Machine.started (setChannelCurrent 19 200 Machine.started) 0
        [⟨0x6C, [0x26, 200]⟩] ∧
      ∀ dev : Device, (dev.receiveAll [⟨0x6C, [0x13, 200]⟩]).active = dev.shadow :=
  C14_no_bounds_check Machine.started 255 200 (by decide) (by decide)

/-! ## The bytes written to the control registers -/

/-- What `begin` emits, for any frequency selector. -/
theorem begin_emits (s : Machine) (bus a f : Nat) :
    Emits s (begin bus a f s) bus
      [⟨a, [0x2F, 0x00]⟩, ⟨a, [0x00, 0x01]⟩, ⟨a, [0x27, if f = 0 then 0x00 else 0x01]⟩,
       ⟨a, [0x26, 0x00]⟩] := by
  have hval : boolVal (f != 0) = if f = 0 then 0x00 else 0x01 := by
    by_cases h : f = 0 <;> simp [boolVal, h]
  show Emits s (setGlobalControl (GLOBAL_LED_ENABLE != 0) (setPWMFrequency (f != 0)
    (setOperationMode (OP_MODE_NORMAL != 0)
      (resetRegisters { s with self := { _wire := bus, _addr := a } })))) bus _
  generalize hs0 : ({ s with self := { _wire := bus, _addr := a } } : Machine) = s0
  have e0 : Emits s s0 bus [] := by
    subst hs0
    exact ⟨by simp [sentOn], fun _ _ => rfl⟩
  have hself0 : s0.self = { _wire := bus, _addr := a } := by subst hs0; rfl
  have e1 : Emits s0 (resetRegisters s0) bus [⟨a, [0x2F, 0x00]⟩] :=
    writeByte_emits_of REG_RESET 0x00 bus a s0 hself0
  have hself1 : (resetRegisters s0).self = { _wire := bus, _addr := a } :=
    (writeByte_self _ _ _).trans hself0
  generalize resetRegisters s0 = s1 at e1 hself1
  have e2 : Emits s1 (setOperationMode (OP_MODE_NORMAL != 0) s1) bus [⟨a, [0x00, 0x01]⟩] :=
    control_emits_of REG_SW_SHUTDOWN (OP_MODE_NORMAL != 0) 0x01 bus a s1 hself1 rfl
  have hself2 : (setOperationMode (OP_MODE_NORMAL != 0) s1).self =
      { _wire := bus, _addr := a } := (writeByte_self _ _ _).trans hself1
  generalize setOperationMode (OP_MODE_NORMAL != 0) s1 = s2 at e2 hself2
  have e3 : Emits s2 (setPWMFrequency (f != 0) s2) bus
      [⟨a, [0x27, if f = 0 then 0x00 else 0x01]⟩] :=
    control_emits_of REG_OUTPUT_FREQ (f != 0) _ bus a s2 hself2 hval
  have hself3 : (setPWMFrequency (f != 0) s2).self = { _wire := bus, _addr := a } :=
    (writeByte_self _ _ _).trans hself2
  generalize setPWMFrequency (f != 0) s2 = s3 at e3 hself3
  have e4 : Emits s3 (setGlobalControl (GLOBAL_LED_ENABLE != 0) s3) bus
      [⟨a, [0x26, 0x00]⟩] :=
    control_emits_of REG_GLOBAL_CONTROL (GLOBAL_LED_ENABLE != 0) 0x00 bus a s3 hself3 rfl
  exact (((e0.trans e1).trans e2).trans e3).trans e4

theorem begin_self (s : Machine) (bus a f : Nat) :
    (begin bus a f s).self = { _wire := bus, _addr := a } := by
  show (setGlobalControl _ (setPWMFrequency _ (setOperationMode _
    (resetRegisters { s with self := { _wire := bus, _addr := a } })))).self = _
  unfold setGlobalControl setPWMFrequency setOperationMode resetRegisters
  simp only [writeByte_self]

/-- C15: the byte written to a control register is 0 or 1. The 8-bit frequency selector of
`begin` goes through the `bool` parameter of `setPWMFrequency`: for every `f` in 0..255 the
third transaction of `begin(bus, a, f)` is `[0x27, 0x00]` when `f = 0` and `[0x27, 0x01]`
when `f ≠ 0`. And whatever their argument, `setOperationMode`, `setGlobalControl` and
`setPWMFrequency` emit one transaction whose data byte is 0 or 1. -/
theorem C15_control_bytes_are_0_or_1 (s : Machine) (bus a f : Nat) (b : Bool)
    (_ha : a < 256) (_hf : f < 256) :
    Emits s (begin bus a f s) bus
        [⟨a, [0x2F, 0x00]⟩, ⟨a, [0x00, 0x01]⟩, ⟨a, [0x27, if f = 0 then 0x00 else 0x01]⟩,
         ⟨a, [0x26, 0x00]⟩] ∧
      (∃ d, (d = 0 ∨ d = 1) ∧
        Emits s (setOperationMode b s) s.self._wire [⟨s.self._addr, [0x00, d]⟩]) ∧
      (∃ d, (d = 0 ∨ d = 1) ∧
        Emits s (setGlobalControl b s) s.self._wire [⟨s.self._addr, [0x26, d]⟩]) ∧
      (∃ d, (d = 0 ∨ d = 1) ∧
        Emits s (setPWMFrequency b s) s.self._wire [⟨s.self._addr, [0x27, d]⟩]) := by
  have hd : (if b then 1 else 0 : Nat) = 0 ∨ (if b then 1 else 0 : Nat) = 1 := by
    cases b <;> simp
  exact ⟨begin_emits s bus a f, ⟨_, hd, control_emits REG_SW_SHUTDOWN b s⟩,
    ⟨_, hd, control_emits REG_GLOBAL_CONTROL b s⟩, ⟨_, hd, control_emits REG_OUTPUT_FREQ b s⟩⟩

/-- C15 at the selector 2: `begin` writes 1, not 2, to the output-frequency register. -/
theorem C15_control_bytes_are_0_or_1_witness :
    Emits Machine.idle (begin 0 0x6C 2 Machine.idle) 0
        [⟨0x6C, [0x2F, 0x00]⟩, ⟨0x6C, [0x00, 0x01]⟩, ⟨0x6C, [0x27, 0x01]⟩,
         ⟨0x6C, [0x26, 0x00]⟩] ∧
      (∃ d, (d = 0 ∨ d = 1) ∧
        Emits Machine.idle (setOperationMode true Machine.idle) 0 [⟨0, [0x00, d]⟩]) ∧
      (∃ d, (d = 0 ∨ d = 1) ∧
        Emits Machine.idle (setGlobalControl true Machine.idle) 0 [⟨0, [0x26, d]⟩]) ∧
      (∃ d, (d = 0 ∨ d = 1) ∧
        Emits Machine.idle (setPWMFrequency true Machine.idle) 0 [⟨0, [0x27, d]⟩]) :=
  C15_control_bytes_are_0_or_1 Machine.idle 0 0x6C 2 true (by decide) (by decide)

/-! ## The loop of `writeBytes` -/

/-- The loop body runs `numBytes - i` times from counter value `i` on: the 8-bit counter
reaches `numBytes` without wrapping. -/
theorem writeBytesIterations_eq (numBytes : Nat) (k : Nat) :
    ∀ i : Nat, i ≤ numBytes % 256 → numBytes % 256 - i = k →
      writeBytesIterations numBytes i = k := by
  induction k with
  | zero =>
    intro i hi hk
    rw [writeBytesIterations, if_neg (by omega)]
  | succ k ih =>
    intro i hi hk
    have hlt : i < numBytes % 256 := by omega
    have hmod : (i + 1) % 256 = i + 1 := by omega
    rw [writeBytesIterations, if_pos hlt, hmod, ih (i + 1) (by omega) (by omega)]

/-- Reading the first `n` elements of an array through its index function. -/
theorem map_getD_range (val : List Nat) (n : Nat) (hn : n ≤ val.length) :
    (List.range n).map (fun i => val.getD i 0) = val.take n := by
  apply List.ext_getElem
  · simp [hn]
  · intro i h1 h2
    simp only [List.length_map, List.length_range] at h1
    simp [List.getD_eq_getElem?_getD, List.getElem?_eq_getElem (show i < val.length by omega)]

/-- C16: `writeBytes` terminates and emits one well-formed transaction. For every start
register `r`, count `n` in 0..255 and array `val` of at least `n` bytes, the loop body runs
exactly `n` times, and the call emits exactly one transaction, to the device address, holding
the `n + 1` bytes `r, val[0], …, val[n-1]` in this order, and leaves the bus with no open
transaction. `writeByte(r, v)` does exactly what `writeBytes(r, 1, [v])` does. -/
theorem C16_writeBytes_one_transaction (s : Machine) (r n v : Nat) (val : List Nat)
    (_hr : r < 256) (hn : n < 256) (hval : n ≤ val.length) :
    writeBytesIterations n 0 = n ∧
      Emits s (writeBytes r n (fun i => val.getD i 0) s) s.self._wire
        [⟨s.self._addr, r :: val.take n⟩] ∧
      (r :: val.take n).length = n + 1 ∧
      ((writeBytes r n (fun i => val.getD i 0) s).wires s.self._wire).transmitting = false ∧
      ((writeBytes r n (fun i => val.getD i 0) s).wires s.self._wire).txBuffer = [] ∧
      writeByte r v s = writeBytes r 1 (fun i => [v].getD i 0) s := by
  have hmod : n % 256 = n := Nat.mod_eq_of_lt hn
  refine ⟨?_, ?_, ?_, ?_, ?_, ?_⟩
  · have h := writeBytesIterations_eq n (n % 256) 0 (Nat.zero_le _) (by omega)
    rw [hmod] at h
    exact h
  · have h := writeBytes_emits r n (fun i => val.getD i 0) s
    rw [hmod, map_getD_range val n hval] at h
    exact h
  · simp [List.length_take, Nat.min_eq_left hval]
  · rw [writeBytes_eq, onWire_wires_same]
  · rw [writeBytes_eq, onWire_wires_same]
  · rw [writeByte_eq, writeBytes_eq]
    rfl

/-- C16 at `writeBytes(0x01, 3, {7, 8, 9, 10})`, right after `begin`. -/
theorem C16_writeBytes_one_transaction_witness :
    writeBytesIterations 3 0 = 3 ∧
      Emits Machine.started (writeBytes 0x01 3 (fun i => [7, 8, 9, 10].getD i 0) Machine.started)
        0 [⟨0x6C, [0x01, 7, 8, 9]⟩] ∧
      [0x01, 7, 8, 9].length = 3 + 1 ∧
      ((writeBytes 0x01 3 (fun i => [7, 8, 9, 10].getD i 0) Machine.started).wires
        0).transmitting = false ∧
      ((writeBytes 0x01 3 (fun i => [7, 8, 9, 10].getD i 0) Machine.started).wires
        0).txBuffer = [] ∧
      writeByte 0x01 5 Machine.started =
        writeBytes 0x01 1 (fun i => [5].getD i 0) Machine.started :=
  C16_writeBytes_one_transaction Machine.started 0x01 3 5 [7, 8, 9, 10] (by decide)
    (by decide) (by decide)

/-! ## The public interface: driver fields, addresses, transport statuses -/

theorem control_self (reg : Nat) (b : Bool) (s : Machine) :
    (writeByte reg (0x00 ||| boolVal b) s).self = s.self :=
  writeByte_self _ _ s

theorem setChannel_self (mem : Nat → Nat) (c p q : Nat) (s : Machine) :
    (setChannel mem c p q s).self = s.self := by
  unfold setChannel
  simp only [writeBytes_self]

theorem setAllChannels_self (stackP stackC : Nat → Nat) (p q : Nat) (s : Machine) :
    (setAllChannels stackP stackC p q s).self = s.self := by
  unfold setAllChannels
  simp only [writeBytes_self]

/-- Every method other than `begin` leaves the fields of the driver object alone. -/
theorem runOp_self (mem stackP stackC : Nat → Nat) (op : Op) (hop : op.isBegin = false)
    (s : Machine) : (runOp mem stackP stackC op s).self = s.self := by
  cases op with
  | begin w a f => simp [Op.isBegin] at hop
  | setOperationMode m => exact control_self _ m s
  | setChannelPWM c v => exact setChannelPWM_self c v s
  | setAllChannelsPWM v => exact setAllChannelsPWM_self stackP v s
  | setChannelCurrent c v => exact setChannelCurrent_self c v s
  | setAllChannelsCurrent v => exact setAllChannelsCurrent_self stackC v s
  | setChannel c p q => exact setChannel_self mem c p q s
  | setAllChannels p q => exact setAllChannels_self stackP stackC p q s
  | updateChannels => exact updateChannels_self s
  | setGlobalControl m => exact control_self _ m s
  | setPWMFrequency m => exact control_self _ m s
  | resetRegisters => exact writeByte_self _ _ s

/-- Every method other than `begin` emits, on the bus `_wire` points to, transactions that
depend on the fields of the driver object only, all of them addressed to `_addr`. -/
theorem runOp_emits (mem stackP stackC : Nat → Nat) (op : Op) (hop : op.isBegin = false) :
    ∃ T : IS31FL3209 → List Transaction, ∀ s : Machine,
      Emits s (runOp mem stackP stackC op s) s.self._wire (T s.self) ∧
        ∀ t ∈ T s.self, t.addr = s.self._addr := by
  cases op with
  | begin w a f => simp [Op.isBegin] at hop
  | setOperationMode m =>
    exact ⟨fun d => [⟨d._addr, [REG_SW_SHUTDOWN, if m then 1 else 0]⟩],
      fun s => ⟨control_emits _ m s, by simp⟩⟩
  | setChannelPWM c v =>
    exact ⟨fun d => [⟨d._addr, [(0x01 + c - 1) % 256, v]⟩],
      fun s => ⟨setChannelPWM_emits_any s c v, by simp⟩⟩
  | setAllChannelsPWM v =>
    exact ⟨fun d => [⟨d._addr, 0x01 :: List.replicate 18 v⟩],
      fun s => ⟨setAllChannelsPWM_emits stackP s v, by simp⟩⟩
  | setChannelCurrent c v =>
    exact ⟨fun d => [⟨d._addr, [(0x14 + c - 1) % 256, v]⟩],
      fun s => ⟨setChannelCurrent_emits_any s c v, by simp⟩⟩
  | setAllChannelsCurrent v =>
    exact ⟨fun d => [⟨d._addr, 0x14 :: List.replicate 18 v⟩],
      fun s => ⟨setAllChannelsCurrent_emits stackC s v, by simp⟩⟩
  | setChannel c p q =>
    exact ⟨fun d => [⟨d._addr, 0x01 :: (List.range 18).map (fun i => mem (p + i))⟩,
        ⟨d._addr, 0x14 :: (List.range 18).map (fun i => mem (q + i))⟩],
      fun s => ⟨setChannel_emits mem s c p q, by simp⟩⟩
  | setAllChannels p q =>
    refine ⟨fun d => [⟨d._addr, 0x01 :: List.replicate 18 p⟩,
        ⟨d._addr, 0x14 :: List.replicate 18 q⟩], fun s => ⟨?_, by simp⟩⟩
    have h1 := setAllChannelsPWM_emits stackP s p
    have h2 := setAllChannelsCurrent_emits stackC (setAllChannelsPWM stackP p s) q
    rw [setAllChannelsPWM_self] at h2
    exact Emits.trans h1 h2
  | updateChannels =>
    exact ⟨fun d => [⟨d._addr, [0x13, 0x00]⟩], fun s => ⟨updateChannels_emits s, by simp⟩⟩
  | setGlobalControl m =>
    exact ⟨fun d => [⟨d._addr, [REG_GLOBAL_CONTROL, if m then 1 else 0]⟩],
      fun s => ⟨control_emits _ m s, by simp⟩⟩
  | setPWMFrequency m =>
    exact ⟨fun d => [⟨d._addr, [REG_OUTPUT_FREQ, if m then 1 else 0]⟩],
      fun s => ⟨control_emits _ m s, by simp⟩⟩
  | resetRegisters =>
    exact ⟨fun d => [⟨d._addr, [REG_RESET, 0x00]⟩],
      fun s => ⟨writeByte_emits _ _ s, by simp⟩⟩

theorem runAll_self (mem stackP stackC : Nat → Nat) (ops : List Op) :
    ∀ s : Machine, (∀ op ∈ ops, op.isBegin = false) →
      (runAll mem stackP stackC ops s).self = s.self := by
  induction ops with
  | nil => intro s _; rfl
  | cons op ops ih =>
    intro s h
    have h1 := runOp_self mem stackP stackC op (h op (by simp)) s
    have h2 := ih (runOp mem stackP stackC op s) (fun o ho => h o (by simp [ho]))
    simp only [runAll, List.foldl_cons] at h2 ⊢
    rw [h2, h1]

/-- A sequence of calls of methods other than `begin`: as for one call. -/
theorem runAll_emits (mem stackP stackC : Nat → Nat) (ops : List Op)
    (hops : ∀ op ∈ ops, op.isBegin = false) :
    ∃ T : IS31FL3209 → List Transaction, ∀ s : Machine,
      Emits s (runAll mem stackP stackC ops s) s.self._wire (T s.self) ∧
        ∀ t ∈ T s.self, t.addr = s.self._addr := by
  induction ops with
  | nil => exact ⟨fun _ => [], fun s => ⟨emits_refl s _, by simp⟩⟩
  | cons op ops ih =>
    obtain ⟨T1, h1⟩ := runOp_emits mem stackP stackC op (hops op (by simp))
    obtain ⟨T2, h2⟩ := ih (fun o ho => hops o (by simp [ho]))
    refine ⟨fun d => T1 d ++ T2 d, fun s => ?_⟩
    have hself := runOp_self mem stackP stackC op (hops op (by simp)) s
    have e2 := h2 (runOp mem stackP stackC op s)
    rw [hself] at e2
    refine ⟨Emits.trans (h1 s).1 e2.1, fun t ht => ?_⟩
    rcases List.mem_append.mp ht with h | h
    · exact (h1 s).2 t h
    · exact e2.2 t h

/-- A call that emits transactions depending on the driver's fields only sends the same
transactions whatever statuses the transport is going to report. -/
theorem sentOn_withResults_indep (f : Machine → Machine) (T : IS31FL3209 → List Transaction)
    (hf : ∀ s : Machine, Emits s (f s) s.self._wire (T s.self)) (s : Machine)
    (rs : Nat → List Nat) (b : Nat) :
    sentOn (f (s.withResults rs)) b = sentOn (f s) b := by
  have h1 := hf (s.withResults rs)
  have h2 := hf s
  change Emits (s.withResults rs) (f (s.withResults rs)) s.self._wire (T s.self) at h1
  by_cases hb : b = s.self._wire
  · subst hb
    rw [h1.1, h2.1]
    rfl
  · rw [h1.2 b hb, h2.2 b hb]
    rfl

/-- Method `begin` is four calls on the driver object with its two fields set. -/
theorem begin_eq_runAll (mem stackP stackC : Nat → Nat) (w a f : Nat) (s : Machine) :
    begin w a f s =
      runAll mem stackP stackC
        [.resetRegisters, .setOperationMode (OP_MODE_NORMAL != 0), .setPWMFrequency (f != 0),
         .setGlobalControl (GLOBAL_LED_ENABLE != 0)]
        { s with self := { _wire := w, _addr := a } } :=
  rfl

/-- C12, as the spec states it, fails: on a bus that reports status 4 (a failure) for the
transaction of `updateChannels()`, the call, which returns `void`, leaves exactly the state
it leaves on a bus that reports success (status 0). Nothing tells the caller of the
failure. -/
theorem C12_failure_not_reported :
    writeByteStatus REG_UPDATE 0x00 Machine.failing = 4 ∧
      writeByteStatus REG_UPDATE 0x00 Machine.started = 0 ∧
      updateChannels Machine.failing = updateChannels Machine.started := by
  refine ⟨by decide, by decide, ?_⟩
  have hres : (Machine.started.wires Machine.started.self._wire).results.tail = [] := by
    decide
  have hfs : Machine.failing.self = Machine.started.self := onWire_self _ _
  unfold updateChannels
  rw [writeByte_eq, writeByte_eq, hfs]
  unfold Machine.failing
  rw [onWire_onWire]
  unfold Machine.onWire
  simp only [Function.comp_def, List.tail_cons, hres]

/-- C12, amended: no public method reports a transport failure. Every method returns `void`
and drops the status of each transaction, so whatever statuses the transport reports, a call
leaves the same driver fields and has sent the same transactions, each once (no retry). The
stored address and bus reference are the same after the call as before it for every method
other than `begin`, and `begin` stores the ones it is given. -/
theorem C12_status_dropped (mem stackP stackC : Nat → Nat) (op : Op) (s : Machine)
    (rs : Nat → List Nat) :
    (runOp mem stackP stackC op (s.withResults rs)).self =
        (runOp mem stackP stackC op s).self ∧
      (∀ b, sentOn (runOp mem stackP stackC op (s.withResults rs)) b =
        sentOn (runOp mem stackP stackC op s) b) ∧
      (op.isBegin = false → (runOp mem stackP stackC op (s.withResults rs)).self = s.self) ∧
      (∀ w a f, op = Op.begin w a f →
        (runOp mem stackP stackC op (s.withResults rs)).self = { _wire := w, _addr := a }) := by
  by_cases hop : op.isBegin = false
  · obtain ⟨T, hT⟩ := runOp_emits mem stackP stackC op hop
    have h1 := runOp_self mem stackP stackC op hop (s.withResults rs)
    have h2 := runOp_self mem stackP stackC op hop s
    refine ⟨by rw [h1, h2]; rfl,
      fun b => sentOn_withResults_indep _ T (fun t => (hT t).1) s rs b,
      fun _ => h1, fun w a f h => ?_⟩
    subst h
    simp [Op.isBegin] at hop
  · cases op with
    | begin w a f =>
      refine ⟨?_, fun b => ?_, fun h => absurd h hop, fun w2 a2 f2 h => ?_⟩
      · show (begin w a f (s.withResults rs)).self = (begin w a f s).self
        rw [begin_self, begin_self]
      · obtain ⟨T, hT⟩ := runAll_emits mem stackP stackC
          [.resetRegisters, .setOperationMode (OP_MODE_NORMAL != 0),
           .setPWMFrequency (f != 0), .setGlobalControl (GLOBAL_LED_ENABLE != 0)]
          (by simp [Op.isBegin])
        exact sentOn_withResults_indep _ T (fun t => (hT t).1)
          { s with self := { _wire := w, _addr := a } } rs b
      · cases h
        exact begin_self _ w a f
    | _ => simp [Op.isBegin] at hop

/-- C12, amended, at `updateChannels()` right after `begin`, on buses that will report
status 4. -/
theorem C12_status_dropped_witness :
    (runOp (fun _ => 0) (fun _ => 0) (fun _ => 0) Op.updateChannels
        (Machine.started.withResults (fun _ => [4]))).self =
        (runOp (fun _ => 0) (fun _ => 0) (fun _ => 0) Op.updateChannels Machine.started).self ∧
      (∀ b, sentOn (runOp (fun _ => 0) (fun _ => 0) (fun _ => 0) Op.updateChannels
          (Machine.started.withResults (fun _ => [4]))) b =
        sentOn (runOp (fun _ => 0) (fun _ => 0) (fun _ => 0) Op.updateChannels
          Machine.started) b) ∧
      (runOp (fun _ => 0) (fun _ => 0) (fun _ => 0) Op.updateChannels
        (Machine.started.withResults (fun _ => [4]))).self = Machine.started.self :=
  ⟨(C12_status_dropped (fun _ => 0) (fun _ => 0) (fun _ => 0) Op.updateChannels
      Machine.started (fun _ => [4])).1,
    (C12_status_dropped (fun _ => 0) (fun _ => 0) (fun _ => 0) Op.updateChannels
      Machine.started (fun _ => [4])).2.1,
    (C12_status_dropped (fun _ => 0) (fun _ => 0) (fun _ => 0) Op.updateChannels
      Machine.started (fun _ => [4])).2.2.1 rfl⟩

/-- C13: the device address and the bus reference are fixed at initialization.
`begin(bus, a, f)` stores `bus` and `a`; every method other than `begin` leaves both fields
as they are; and after `begin(bus, a, f)` followed by any sequence of calls of the other
methods the fields still hold `bus` and `a`, and every transaction emitted, those of
`begin` included, went out on `bus` with the address `a`. -/
theorem C13_address_and_bus_fixed (mem stackP stackC : Nat → Nat) (s : Machine)
    (bus a f : Nat) (ops : List Op) (hops : ∀ op ∈ ops, op.isBegin = false) :
    (begin bus a f s).self = { _wire := bus, _addr := a } ∧
      (∀ op : Op, op.isBegin = false →
        ∀ t : Machine, (runOp mem stackP stackC op t).self = t.self) ∧
      (runAll mem stackP stackC ops (begin bus a f s)).self = { _wire := bus, _addr := a } ∧
      ∃ T, Emits s (runAll mem stackP stackC ops (begin bus a f s)) bus T ∧
        ∀ t ∈ T, t.addr = a := by
  have hb := begin_self s bus a f
  obtain ⟨T, hT⟩ := runAll_emits mem stackP stackC ops hops
  have e2 := hT (begin bus a f s)
  rw [hb] at e2
  refine ⟨hb, fun op hop t => runOp_self mem stackP stackC op hop t,
    (runAll_self mem stackP stackC ops _ hops).trans hb,
    _, Emits.trans (begin_emits s bus a f) e2.1, fun t ht => ?_⟩
  rcases List.mem_append.mp ht with h | h
  · simp only [List.mem_cons, List.mem_singleton, List.not_mem_nil, or_false] at h
    rcases h with rfl | rfl | rfl | rfl <;> rfl
  · exact e2.2 t h

/-- C13 at `begin(Wire, 0x6C, 0)` followed by `setChannelPWM(5, 200)`, `setChannel(5, 200,
0x31)`, `setChannelCurrent(0, 7)` and `updateChannels()`. -/
theorem C13_address_and_bus_fixed_witness :
    (begin 0 0x6C 0 Machine.idle).self = { _wire := 0, _addr := 0x6C } ∧
      (∀ op : Op, op.isBegin = false →
        ∀ t : Machine, (runOp (fun _ => 0) (fun _ => 0) (fun _ => 0) op t).self = t.self) ∧
      (runAll (fun _ => 0) (fun _ => 0) (fun _ => 0)
        [.setChannelPWM 5 200, .setChannel 5 200 0x31, .setChannelCurrent 0 7, .updateChannels]
        (begin 0 0x6C 0 Machine.idle)).self = { _wire := 0, _addr := 0x6C } ∧
      ∃ T, Emits Machine.idle (runAll (fun _ => 0) (fun _ => 0) (fun _ => 0)
          [.setChannelPWM 5 200, .setChannel 5 200 0x31, .setChannelCurrent 0 7,
           .updateChannels]
          (begin 0 0x6C 0 Machine.idle)) 0 T ∧
        ∀ t ∈ T, t.addr = 0x6C :=
  C13_address_and_bus_fixed (fun _ => 0) (fun _ => 0) (fun _ => 0) Machine.idle 0 0x6C 0
    [.setChannelPWM 5 200, .setChannel 5 200 0x31, .setChannelCurrent 0 7, .updateChannels]
    (by simp [Op.isBegin])
